import Mathlib

/-!
# file-to-web: credential parsing, client identity and the auth gate

A shallow embedding of `main.go`.  Go strings are modelled as lists of Unicode
code points (`Str`), which is exact for valid UTF-8 text: the separators the
program looks for (`,`, `:`, `[`, `]`) are ASCII, so splitting by byte and
splitting by code point agree.  The credential store (`map[string]string`) is
an association list with unique keys and overwrite-on-insert.  `log.Fatalf`
ends the process; here it is an error result carrying the diagnostic.
-/

namespace FileToWeb

/-- Go `string`, as the list of its code points. -/
abbrev Str := List Char

/-! ## The parts of the Go standard library that `main.go` calls -/

/-- Go `unicode.IsSpace`: the Latin-1 spaces `\t \n \v \f \r`, space, U+0085,
U+00A0, and the other code points with the Unicode White_Space property. -/
def isSpace (c : Char) : Bool :=
  let n := c.toNat
  (0x09 ≤ n && n ≤ 0x0D) || n == 0x20 || n == 0x85 || n == 0xA0 || n == 0x1680 ||
  (0x2000 ≤ n && n ≤ 0x200A) || n == 0x2028 || n == 0x2029 || n == 0x202F ||
  n == 0x205F || n == 0x3000

/-- Go `strings.TrimSpace`: all leading and trailing white space removed. -/
def TrimSpace (s : Str) : Str :=
  List.rdropWhile isSpace (List.dropWhile isSpace s)

/-- Go `strings.Split(s, sep)` for a one-character separator: the pieces of
`s` between consecutive separators; always at least one piece. -/
def Split (s : Str) (sep : Char) : List Str :=
  match s with
  | [] => [[]]
  | c :: cs =>
    if c = sep then [] :: Split cs sep
    else
      match Split cs sep with
      | [] => [[c]]
      | seg :: rest => (c :: seg) :: rest

/-- Go `strings.Cut(s, sep)` for a one-character separator: the text before
and after the first separator, or `none` when there is no separator. -/
def Cut (s : Str) (sep : Char) : Option (Str × Str) :=
  match s with
  | [] => none
  | c :: cs =>
    if c = sep then some ([], cs)
    else
      match Cut cs sep with
      | none => none
      | some (a, b) => some (c :: a, b)

/-- Go `strings.SplitN(s, sep, n)` for a one-character separator and `n ≥ 0`:
at most `n` pieces, the last one being the unsplit remainder. -/
def SplitN (s : Str) (sep : Char) (n : Nat) : List Str :=
  match n with
  | 0 => []
  | 1 => [s]
  | k + 2 =>
    match Cut s sep with
    | none => [s]
    | some (a, b) => a :: SplitN b sep (k + 1)

/-- Go `strings.Join(elems, sep)`. -/
def Join (elems : List Str) (sep : Str) : Str :=
  match elems with
  | [] => []
  | [e] => e
  | e :: rest => e ++ sep ++ Join rest sep

/-! ## The credential store -/

/-- Go `map[string]string`: an association list whose keys are unique. -/
abbrev UserMap := List (Str × Str)

/-- Go `m[k] = v`: overwrite the entry of `k` when present, add it otherwise. -/
def mapSet (m : UserMap) (k v : Str) : UserMap :=
  match m with
  | [] => [(k, v)]
  | (k', v') :: rest =>
    if k' = k then (k, v) :: rest else (k', v') :: mapSet rest k v

/-- Go `v, ok := m[k]`. -/
def mapGet (m : UserMap) (k : Str) : Option Str :=
  match m with
  | [] => none
  | (k', v') :: rest => if k' = k then some v' else mapGet rest k

/-- Go `len(m)`. -/
def mapLen (m : UserMap) : Nat := m.length

/-! ## `parseUsers` -/

deriving instance DecidableEq for Except

/-- The three `log.Fatal` exits of `parseUsers`; each ends the process. -/
inductive Fatal where
  /-- Exit `log.Fatalf` with the text 用户参数格式错误：%s（正确格式：user:pass,user2:pass2）. -/
  | badFormat (pair : Str)
  /-- Exit `log.Fatalf` with the text 用户名/密码不能为空：%s. -/
  | emptyField (pair : Str)
  /-- Exit `log.Fatal` with the text 未配置有效用户，请检查-users参数. -/
  | noUsers
  deriving DecidableEq, Repr

/-- The diagnostic text written by the fatal exit. -/
def Fatal.message : Fatal → Str
  | .badFormat pair =>
    "用户参数格式错误：".toList ++ pair ++ "（正确格式：user:pass,user2:pass2）".toList
  | .emptyField pair => "用户名/密码不能为空：".toList ++ pair
  | .noUsers => "未配置有效用户，请检查-users参数".toList

/-- The body of `for _, pair := range userPairs` in `parseUsers`, run over the
remaining segments with the store built so far. -/
def parseLoop (userPairs : List Str) (userMap : UserMap) : Except Fatal UserMap :=
  match userPairs with
  | [] => .ok userMap
  | pair :: rest =>
    let pair := TrimSpace pair
    if pair = [] then parseLoop rest userMap
    else
      let parts := SplitN pair ':' 2
      match parts with
      | [p0, p1] =>
        let username := TrimSpace p0
        let password := TrimSpace p1
        if username = [] ∨ password = [] then .error (.emptyField pair)
        else parseLoop rest (mapSet userMap username password)
      | _ => .error (.badFormat pair)

/-- The function `parseUsers` of `main.go`. -/
def parseUsers (userStr : Str) : Except Fatal UserMap :=
  if userStr = [] then
    .ok (mapSet [] "admin".toList "123456".toList)
  else
    match parseLoop (Split userStr ',') [] with
    | .error e => .error e
    | .ok userMap =>
      if mapLen userMap = 0 then .error .noUsers else .ok userMap

/-! ## `getClientIP` -/

/-- Go `strings.IndexByte`: position of the first `c` in `s`, if any. -/
def IndexByte (s : Str) (c : Char) : Option Nat :=
  match s with
  | [] => none
  | x :: xs => if x = c then some 0 else (IndexByte xs c).map (· + 1)

/-- Go `strings.LastIndexByte`: position of the last `c` in `s`, if any. -/
def LastIndexByte (s : Str) (c : Char) : Option Nat :=
  match s with
  | [] => none
  | x :: xs =>
    match LastIndexByte xs c with
    | some i => some (i + 1)
    | none => if x = c then some 0 else none

/-- The reasons for which Go `net.SplitHostPort` returns an `AddrError`. -/
inductive AddrError where
  | missingPort
  | tooManyColons
  | missingCloseBracket
  | unexpectedOpenBracket
  | unexpectedCloseBracket
  deriving DecidableEq, Repr

/-- The tail of Go `net.SplitHostPort`, after the host has been found: no `[`
from position `j` on, no `]` from position `k` on, and the port is what
follows the last colon, at position `i`. -/
def splitHostPortTail (hostport host : Str) (i j k : Nat) : Except AddrError (Str × Str) :=
  if (IndexByte (hostport.drop j) '[').isSome then .error .unexpectedOpenBracket
  else if (IndexByte (hostport.drop k) ']').isSome then .error .unexpectedCloseBracket
  else .ok (host, hostport.drop (i + 1))

/-- Go `net.SplitHostPort`. -/
def SplitHostPort (hostport : Str) : Except AddrError (Str × Str) :=
  match LastIndexByte hostport ':' with
  | none => .error .missingPort
  | some i =>
    if hostport.head? = some '[' then
      match IndexByte hostport ']' with
      | none => .error .missingCloseBracket
      | some close =>
        if close + 1 = hostport.length then .error .missingPort
        else if close + 1 = i then
          splitHostPortTail hostport ((hostport.take close).drop 1) i 1 (close + 1)
        else if hostport.get? (close + 1) = some ':' then .error .tooManyColons
        else .error .missingPort
    else
      let host := hostport.take i
      if (IndexByte host ':').isSome then .error .tooManyColons
      else splitHostPortTail hostport host i 0 0

/-- The fields of `*http.Request` that the handlers read. -/
structure Request where
  /-- Field `r.RemoteAddr`. -/
  RemoteAddr : Str
  /-- Field `r.URL.Path`. -/
  Path : Str
  /-- Result of `r.BasicAuth()`: the decoded user and password of a well-formed
  `Authorization: Basic` header, `none` when its `ok` result is false. -/
  BasicAuth : Option (Str × Str)
  deriving DecidableEq, Repr

/-- The function `getClientIP` of `main.go`. -/
def getClientIP (r : Request) : Str :=
  let ipPort := r.RemoteAddr
  match SplitHostPort ipPort with
  | .error _ => ipPort
  | .ok (ip, _) => ip

/-! ## Responses and handlers -/

/-- Go `textproto.validHeaderFieldByte`: the bytes allowed in a header name. -/
def validHeaderFieldByte (c : Char) : Bool :=
  let n := c.toNat
  (48 ≤ n && n ≤ 57) || (65 ≤ n && n ≤ 90) || (97 ≤ n && n ≤ 122) ||
  [33, 35, 36, 37, 38, 39, 42, 43, 45, 46, 94, 95, 96, 124, 126].contains n

/-- The letter-case loop of Go `textproto.canonicalMIMEHeaderKey`: a letter is
put in upper case at the start and after a hyphen, in lower case elsewhere. -/
def canonicalCase (upper : Bool) (s : Str) : Str :=
  match s with
  | [] => []
  | c :: cs =>
    let c1 :=
      if upper && decide (97 ≤ c.toNat ∧ c.toNat ≤ 122) then Char.ofNat (c.toNat - 32)
      else if !upper && decide (65 ≤ c.toNat ∧ c.toNat ≤ 90) then Char.ofNat (c.toNat + 32)
      else c
    c1 :: canonicalCase (c == '-') cs

/-- Go `textproto.CanonicalMIMEHeaderKey`: a name with a byte that is not
allowed is returned unchanged. -/
def CanonicalMIMEHeaderKey (s : Str) : Str :=
  if s.all validHeaderFieldByte then canonicalCase true s else s

/-- Go `http.Header`, with one value per name (the program only uses `Set`). -/
abbrev Header := List (Str × Str)

/-- Go `Header.Set`. -/
def Header.Set (h : Header) (key value : Str) : Header :=
  mapSet h (CanonicalMIMEHeaderKey key) value

/-- Go `Header.Get`; `none` stands for the empty result of an absent name. -/
def Header.Get (h : Header) (key : Str) : Option Str :=
  mapGet h (CanonicalMIMEHeaderKey key)

/-- Go `Header.Del`. -/
def Header.Del (h : Header) (key : Str) : Header :=
  h.filter (fun kv => kv.1 ≠ CanonicalMIMEHeaderKey key)

/-- The state behind an `http.ResponseWriter`. -/
structure ResponseWriter where
  /-- The map returned by `w.Header()`. -/
  header : Header
  /-- Status code and header map sent by the first `WriteHeader`, if any. -/
  sent : Option (Nat × Header)
  /-- The body written so far. -/
  body : Str
  deriving DecidableEq, Repr

/-- Go `w.WriteHeader(code)`: the first call sends status and headers, later
calls are ignored. -/
def ResponseWriter.WriteHeader (w : ResponseWriter) (code : Nat) : ResponseWriter :=
  match w.sent with
  | some _ => w
  | none => { w with sent := some (code, w.header) }

/-- Go `w.Write(data)`: sends status 200 first when no status was sent. -/
def ResponseWriter.Write (w : ResponseWriter) (data : Str) : ResponseWriter :=
  let w1 := w.WriteHeader 200
  { w1 with body := w1.body ++ data }

/-- Go `http.Error(w, error, code)`. -/
def httpError (w : ResponseWriter) (error : Str) (code : Nat) : ResponseWriter :=
  let h := (w.header.Del "Content-Length".toList)
  let h := h.Set "Content-Type".toList "text/plain; charset=utf-8".toList
  let h := h.Set "X-Content-Type-Options".toList "nosniff".toList
  let w1 := ({ w with header := h }).WriteHeader code
  w1.Write (error ++ ['\n'])

/-- What a handler acts on: the response being built and the text written to
the sink of the process-wide logger, as the list of its physical lines, oldest
first.  Every write of the logger ends with a line feed, so the sink always
holds whole lines. -/
structure World where
  resp : ResponseWriter
  log : List Str
  deriving DecidableEq, Repr

/-- Go `http.Handler`: `ServeHTTP(w, r)`. -/
abbrev Handler := Request → World → World

/-- The text that Go `Logger.Output` writes for the message `msg`: the message,
and a line feed when the message is empty or does not end with one.  The
timestamp header that the logger puts before the message is left out. -/
def logText (msg : Str) : Str :=
  if msg = [] ∨ msg.getLast? ≠ some '\n' then msg ++ ['\n'] else msg

/-- The physical lines of a text that ends with a line feed. -/
def textLines (t : Str) : List Str :=
  (Split t '\n').dropLast

/-- Go `log.Printf` on the formatted message `msg`: one write to the sink,
which adds as many physical lines as the message has, one more than its line
feeds when it does not end with one. -/
def logPrintf (msg : Str) (s : World) : World :=
  { s with log := s.log ++ textLines (logText msg) }

/-- Constant `http.StatusUnauthorized`. -/
def StatusUnauthorized : Nat := 401

/-- Format `[%s] 认证失败 - 未提供用户名密码 (请求路径: %s)`. -/
def noCredentialsLine (clientIP path : Str) : Str :=
  "[".toList ++ clientIP ++ "] 认证失败 - 未提供用户名密码 (请求路径: ".toList ++ path ++ ")".toList

/-- Format `[%s] 认证失败 - 用户名/密码错误 (用户名: %s, 请求路径: %s)`. -/
def badCredentialsLine (clientIP user path : Str) : Str :=
  "[".toList ++ clientIP ++ "] 认证失败 - 用户名/密码错误 (用户名: ".toList ++ user ++
    ", 请求路径: ".toList ++ path ++ ")".toList

/-- Format `[%s] 认证成功 - 用户名: %s (请求路径: %s)`. -/
def authSuccessLine (clientIP user path : Str) : Str :=
  "[".toList ++ clientIP ++ "] 认证成功 - 用户名: ".toList ++ user ++
    " (请求路径: ".toList ++ path ++ ")".toList

/-- Format `[%s] 文件访问 - 路径: %s`. -/
def accessLine (clientIP path : Str) : Str :=
  "[".toList ++ clientIP ++ "] 文件访问 - 路径: ".toList ++ path

/-- The challenge sent with a 401: `Basic realm="File Server Login"`. -/
def challenge : Str := "Basic realm=\"File Server Login\"".toList

/-- The two statements that follow the log line in both failure branches of
`basicAuth`: the challenge header, then `http.Error` with status 401. -/
def unauthorized (s : World) : World :=
  let w := { s.resp with
    header := s.resp.header.Set "WWW-Authenticate".toList challenge }
  { s with resp := httpError w "认证失败，请输入正确的用户名和密码".toList StatusUnauthorized }

/-- The function `basicAuth` of `main.go`; the global `users` is a parameter. -/
def basicAuth (users : UserMap) (handler : Handler) : Handler :=
  fun r s =>
    let clientIP := getClientIP r
    match r.BasicAuth with
    | none =>
      unauthorized (logPrintf (noCredentialsLine clientIP r.Path) s)
    | some (user, pass) =>
      let found := mapGet users user
      let expectedPass := found.getD []
      let exists_ := found.isSome
      if !exists_ ∨ pass ≠ expectedPass then
        unauthorized (logPrintf (badCredentialsLine clientIP user r.Path) s)
      else
        handler r (logPrintf (authSuccessLine clientIP user r.Path) s)

/-- The function `loggingFileHandler` of `main.go`; `FileServer` stands for
`http.FileServer`, which is outside the program. -/
def loggingFileHandler {FS : Type} (FileServer : FS → Handler) (root : FS) : Handler :=
  let fileServer := FileServer root
  fun r s =>
    let clientIP := getClientIP r
    fileServer r (logPrintf (accessLine clientIP r.Path) s)

/-- The handler that `main` registers for every path:
`basicAuth(loggingFileHandler(http.Dir(absPath)))`. -/
def chain {FS : Type} (users : UserMap) (FileServer : FS → Handler) (root : FS) : Handler :=
  basicAuth users (loggingFileHandler FileServer root)

/-! ## The words of the specification about segments -/

/-- A segment that is empty or holds white space only. -/
def isBlank (seg : Str) : Bool := seg.all isSpace

/-- The username of a segment: what stands before the first colon of the
trimmed segment, trimmed. -/
def segUser (seg : Str) : Str :=
  TrimSpace ((TrimSpace seg).takeWhile (fun c => c ≠ ':'))

/-- The password of a segment: what follows the first colon of the trimmed
segment, trimmed. -/
def segPass (seg : Str) : Str :=
  TrimSpace (((TrimSpace seg).dropWhile (fun c => c ≠ ':')).drop 1)

/-- A malformed segment: non-empty after trimming, and without a colon or
with an empty username or an empty password. -/
def badSegment (seg : Str) : Bool :=
  decide (TrimSpace seg ≠ []) &&
    (!(TrimSpace seg).contains ':' || decide (segUser seg = []) || decide (segPass seg = []))

/-- The configuration string `u_1:p_1,...,u_n:p_n` of a list of pairs. -/
def renderUsers (ps : List (Str × Str)) : Str :=
  Join (ps.map (fun up => up.1 ++ [':'] ++ up.2)) [',']

/-- Whether a text starts or ends with white space. -/
def hasOuterSpace (s : Str) : Bool :=
  s.head?.any isSpace || s.getLast?.any isSpace

/-- The segment list `ys` is the segment list `xs` with white space added
around segments and blank segments inserted. -/
inductive Padded : List Str → List Str → Prop where
  | nil : Padded [] []
  | pad (a b x : Str) (xs ys : List Str) :
      isBlank a = true → isBlank b = true → Padded xs ys →
      Padded (x :: xs) ((a ++ x ++ b) :: ys)
  | blank (z : Str) (xs ys : List Str) :
      isBlank z = true → Padded xs ys → Padded xs (z :: ys)

/-- The fatal exit taken at a malformed segment. -/
def segError (seg : Str) : Fatal :=
  if ':' ∈ TrimSpace seg then .emptyField (TrimSpace seg)
  else .badFormat (TrimSpace seg)

/-- The store after the well-formed segments `segs` were entered into `m`,
one after the other. -/
def storeOf (segs : List Str) (m : UserMap) : UserMap :=
  (segs.filter (fun seg => !isBlank seg)).foldl
    (fun acc seg => mapSet acc (segUser seg) (segPass seg)) m

/-- A username of a well-formed configuration: non-empty, without colon or
comma, not starting or ending with white space. -/
def validUser (u : Str) : Prop :=
  u ≠ [] ∧ ':' ∉ u ∧ ',' ∉ u ∧ hasOuterSpace u = false

/-- A password of a well-formed configuration: non-empty, without comma, not
starting or ending with white space; it may hold colons. -/
def validPass (p : Str) : Prop :=
  p ≠ [] ∧ ',' ∉ p ∧ hasOuterSpace p = false

instance (u : Str) : Decidable (validUser u) := by
  unfold validUser; infer_instance

instance (p : Str) : Decidable (validPass p) := by
  unfold validPass; infer_instance

/-- The characters that delimit host and port in a peer address. -/
def isDelimiter (c : Char) : Bool := c == ':' || c == '[' || c == ']'

/-- The request carries Basic credentials whose user is a key of the store
and whose password is the stored one. -/
def authorized (users : UserMap) (r : Request) : Prop :=
  match r.BasicAuth with
  | none => False
  | some (user, pass) => mapGet users user = some pass

instance (users : UserMap) (r : Request) : Decidable (authorized users r) := by
  unfold authorized
  split <;> infer_instance

/-- The client identifier, the requested path and the username of the request,
when it has one, hold no line feed. -/
def singleLine (r : Request) : Bool :=
  !(getClientIP r).contains '\n' && !r.Path.contains '\n' &&
    (match r.BasicAuth with
     | none => true
     | some (user, _) => !user.contains '\n')

/-- The log line format `[<client-ip>] <event> - <details>`. -/
def tagged (clientIP event details : Str) : Str :=
  "[".toList ++ clientIP ++ "] ".toList ++ event ++ " - ".toList ++ details

/-! ## Lemmas on trimming -/

theorem dropWhile_blank_append (a l : Str) (ha : isBlank a = true) :
    List.dropWhile isSpace (a ++ l) = List.dropWhile isSpace l := by
  induction a with
  | nil => rfl
  | cons c cs ih =>
    simp only [isBlank, List.all_cons, Bool.and_eq_true] at ha
    simp only [List.cons_append, List.dropWhile_cons, ha.1, if_true]
    exact ih (by simpa [isBlank] using ha.2)

theorem rdropWhile_append_blank (l b : Str) (hb : isBlank b = true) :
    List.rdropWhile isSpace (l ++ b) = List.rdropWhile isSpace l := by
  induction b using List.reverseRecOn with
  | nil => simp
  | append_singleton cs c ih =>
    have h : isBlank cs = true ∧ isSpace c = true := by
      simpa [isBlank, List.all_append] using hb
    rw [← List.append_assoc, List.rdropWhile_concat, if_pos h.2]
    exact ih h.1

theorem dropWhile_blank (s : Str) (h : isBlank s = true) :
    List.dropWhile isSpace s = [] := by
  have := dropWhile_blank_append s [] h
  simpa using this

theorem TrimSpace_blank (s : Str) (h : isBlank s = true) : TrimSpace s = [] := by
  simp [TrimSpace, dropWhile_blank s h]

theorem isBlank_of_TrimSpace_nil (s : Str) (h : TrimSpace s = []) : isBlank s = true := by
  unfold TrimSpace at h
  rw [List.rdropWhile_eq_nil_iff] at h
  simp only [isBlank, List.all_eq_true]
  intro c hc
  by_contra hcs
  have hne : List.dropWhile isSpace s ≠ [] := by
    intro hnil
    rw [List.dropWhile_eq_nil_iff] at hnil
    exact hcs (hnil c hc)
  have hhead := List.head_dropWhile_not isSpace s hne
  have := h _ (List.head_mem hne)
  simp [this] at hhead

theorem dropWhile_append_of_not_blank (x b : Str) (hx : isBlank x = false) :
    List.dropWhile isSpace (x ++ b) = List.dropWhile isSpace x ++ b := by
  induction x with
  | nil => simp [isBlank] at hx
  | cons c cs ih =>
    by_cases hc : isSpace c = true
    · have hcs : isBlank cs = false := by
        simpa [isBlank, hc] using hx
      simp only [List.cons_append, List.dropWhile_cons, hc, if_true]
      exact ih hcs
    · simp [List.dropWhile_cons, hc]

theorem TrimSpace_pad (a x b : Str) (ha : isBlank a = true) (hb : isBlank b = true) :
    TrimSpace (a ++ x ++ b) = TrimSpace x := by
  unfold TrimSpace
  rw [List.append_assoc, dropWhile_blank_append a _ ha]
  by_cases hx : isBlank x = true
  · have hxb : isBlank (x ++ b) = true := by
      simp only [isBlank, List.all_append, Bool.and_eq_true] at *
      exact ⟨hx, hb⟩
    rw [dropWhile_blank _ hxb, dropWhile_blank _ hx]
  · have hx' : isBlank x = false := by simpa using hx
    rw [dropWhile_append_of_not_blank x b hx', rdropWhile_append_blank _ _ hb]

theorem TrimSpace_id (s : Str) (h : hasOuterSpace s = false) : TrimSpace s = s := by
  unfold TrimSpace
  simp only [hasOuterSpace, Bool.or_eq_false_iff] at h
  have h1 : List.dropWhile isSpace s = s := by
    cases s with
    | nil => rfl
    | cons c cs =>
      have : isSpace c = false := by simpa using h.1
      simp [List.dropWhile_cons, this]
  rw [h1]
  rcases List.eq_nil_or_concat s with hs | ⟨l, c, hs⟩
  · subst hs; rfl
  · subst hs
    rw [List.concat_eq_append] at h ⊢
    have : isSpace c = false := by simpa using h.2
    rw [List.rdropWhile_concat]
    simp [this]

/-! ## Lemmas on splitting and joining -/

theorem Split_ne_nil (s : Str) (c : Char) : Split s c ≠ [] := by
  induction s with
  | nil => simp [Split]
  | cons x xs ih =>
    unfold Split
    split
    · simp
    · split
      · simp
      · simp

theorem Split_cons_sep (s : Str) (c : Char) : Split (c :: s) c = [] :: Split s c := by
  rw [Split]; simp

theorem Split_cons_other (x : Char) (s : Str) (c : Char) (h : x ≠ c) :
    ∃ seg rest, Split s c = seg :: rest ∧ Split (x :: s) c = (x :: seg) :: rest := by
  cases hs : Split s c with
  | nil => exact absurd hs (Split_ne_nil s c)
  | cons seg rest =>
    refine ⟨seg, rest, rfl, ?_⟩
    rw [Split, if_neg h, hs]

theorem Split_no_sep (s : Str) (c : Char) : ∀ seg ∈ Split s c, c ∉ seg := by
  induction s with
  | nil => simp [Split]
  | cons x xs ih =>
    by_cases h : x = c
    · subst h
      rw [Split_cons_sep]
      intro seg hseg
      rcases List.mem_cons.1 hseg with rfl | hseg
      · simp
      · exact ih seg hseg
    · obtain ⟨seg0, rest, h1, h2⟩ := Split_cons_other x xs c h
      rw [h2]
      rw [h1] at ih
      intro seg hseg
      rcases List.mem_cons.1 hseg with rfl | hseg
      · intro hmem
        rcases List.mem_cons.1 hmem with hc | hc
        · exact h hc.symm
        · exact ih seg0 (List.mem_cons_self _ _) hc
      · exact ih seg (List.mem_cons_of_mem _ hseg)

theorem Split_of_not_mem (x : Str) (c : Char) (h : c ∉ x) : Split x c = [x] := by
  induction x with
  | nil => rfl
  | cons y ys ih =>
    have hy : y ≠ c := fun e => h (by simp [e])
    have hys : c ∉ ys := fun e => h (List.mem_cons_of_mem _ e)
    rw [Split, if_neg hy, ih hys]

theorem Split_append_sep (x rest : Str) (c : Char) (h : c ∉ x) :
    Split (x ++ c :: rest) c = x :: Split rest c := by
  induction x with
  | nil => exact Split_cons_sep rest c
  | cons y ys ih =>
    have hy : y ≠ c := fun e => h (by simp [e])
    have hys : c ∉ ys := fun e => h (List.mem_cons_of_mem _ e)
    rw [List.cons_append, Split, if_neg hy, ih hys]

theorem Split_Join (segs : List Str) (c : Char) (hne : segs ≠ [])
    (h : ∀ seg ∈ segs, c ∉ seg) : Split (Join segs [c]) c = segs := by
  induction segs with
  | nil => exact absurd rfl hne
  | cons x xs ih =>
    cases xs with
    | nil =>
      simp only [Join]
      exact Split_of_not_mem x c (h x (List.mem_cons_self _ _))
    | cons y ys =>
      have hx : c ∉ x := h x (List.mem_cons_self _ _)
      have hrest : ∀ seg ∈ y :: ys, c ∉ seg := fun seg hs => h seg (List.mem_cons_of_mem _ hs)
      simp only [Join]
      rw [List.append_assoc, List.singleton_append, Split_append_sep x _ c hx,
        ih (by simp) hrest]

theorem Cut_eq (s : Str) (c : Char) :
    Cut s c =
      if c ∈ s then
        some (s.takeWhile (fun x => x ≠ c), (s.dropWhile (fun x => x ≠ c)).drop 1)
      else none := by
  induction s with
  | nil => simp [Cut]
  | cons y ys ih =>
    by_cases hy : y = c
    · subst hy
      simp [Cut]
    · have hp : decide (y ≠ c) = true := by simpa using hy
      rw [Cut, if_neg hy, ih]
      by_cases hc : c ∈ ys
      · rw [if_pos hc, if_pos (List.mem_cons_of_mem _ hc)]
        simp only [List.takeWhile_cons, List.dropWhile_cons, hp, if_true]
      · have hc' : c ∉ y :: ys := by
          intro h
          rcases List.mem_cons.1 h with h | h
          · exact hy h.symm
          · exact hc h
        rw [if_neg hc, if_neg hc']

theorem SplitN_two (s : Str) (c : Char) :
    SplitN s c 2 =
      if c ∈ s then
        [s.takeWhile (fun x => x ≠ c), (s.dropWhile (fun x => x ≠ c)).drop 1]
      else [s] := by
  rw [SplitN, Cut_eq]
  by_cases hc : c ∈ s
  · rw [if_pos hc, if_pos hc]
    rfl
  · rw [if_neg hc, if_neg hc]

/-! ## The loop of `parseUsers`, segment by segment -/

theorem badSegment_iff (seg : Str) :
    badSegment seg = true ↔
      TrimSpace seg ≠ [] ∧ (':' ∉ TrimSpace seg ∨ segUser seg = [] ∨ segPass seg = []) := by
  simp [badSegment, or_assoc]

theorem parseLoop_cons (seg : Str) (rest : List Str) (m : UserMap) :
    parseLoop (seg :: rest) m =
      if isBlank seg then parseLoop rest m
      else if badSegment seg then .error (segError seg)
      else parseLoop rest (mapSet m (segUser seg) (segPass seg)) := by
  rw [parseLoop]
  by_cases hb : isBlank seg = true
  · rw [if_pos hb]
    simp [TrimSpace_blank seg hb]
  · have hne : TrimSpace seg ≠ [] := fun e => hb (isBlank_of_TrimSpace_nil seg e)
    rw [if_neg hb]
    simp only [hne, if_false, SplitN_two]
    by_cases hc : ':' ∈ TrimSpace seg
    · rw [if_pos hc]
      by_cases hbad : segUser seg = [] ∨ segPass seg = []
      · have hB : badSegment seg = true :=
          (badSegment_iff seg).2 ⟨hne, Or.inr hbad⟩
        rw [if_pos hB]
        simp only [segError, if_pos hc]
        exact if_pos hbad
      · have hB : ¬ badSegment seg = true := by
          rw [badSegment_iff]
          rintro ⟨_, h | h⟩
          · exact h hc
          · exact hbad h
        rw [if_neg hB]
        exact if_neg hbad
    · have hB : badSegment seg = true :=
        (badSegment_iff seg).2 ⟨hne, Or.inl hc⟩
      rw [if_neg hc, if_pos hB]
      simp only [segError, if_neg hc]

theorem parseLoop_eq (segs : List Str) (m : UserMap) :
    parseLoop segs m =
      match segs.find? badSegment with
      | some seg => .error (segError seg)
      | none => .ok (storeOf segs m) := by
  induction segs generalizing m with
  | nil => simp [parseLoop, storeOf]
  | cons seg rest ih =>
    rw [parseLoop_cons]
    by_cases hb : isBlank seg = true
    · have hnb : badSegment seg = false := by
        simp [badSegment, TrimSpace_blank seg hb]
      simp only [hb, if_true, List.find?_cons, hnb, ih m]
      simp [storeOf, hb]
    · by_cases hbad : badSegment seg = true
      · simp [hb, hbad, List.find?_cons]
      · simp only [hb, hbad, if_false, List.find?_cons, ih]
        simp [storeOf, hb]

/-! ## Lemmas on the store -/

theorem mapGet_mapSet (m : UserMap) (k v k1 : Str) :
    mapGet (mapSet m k v) k1 = if k = k1 then some v else mapGet m k1 := by
  induction m with
  | nil => simp [mapSet, mapGet]
  | cons kv rest ih =>
    obtain ⟨k0, v0⟩ := kv
    by_cases h0 : k0 = k
    · subst h0
      by_cases h1 : k0 = k1 <;> simp [mapSet, mapGet, h1]
    · by_cases h1 : k0 = k1
      · subst h1
        have : ¬ k = k0 := fun e => h0 e.symm
        simp [mapSet, mapGet, h0, this]
      · simp [mapSet, mapGet, h0, h1, ih]

theorem mapSet_keys (m : UserMap) (k v : Str) :
    (mapSet m k v).map Prod.fst =
      if k ∈ m.map Prod.fst then m.map Prod.fst else m.map Prod.fst ++ [k] := by
  induction m with
  | nil => simp [mapSet]
  | cons kv rest ih =>
    obtain ⟨k0, v0⟩ := kv
    by_cases h0 : k0 = k
    · subst h0
      simp [mapSet]
    · have h0' : ¬ k = k0 := fun e => h0 e.symm
      simp only [mapSet, if_neg h0, List.map_cons, ih, List.mem_cons, h0', false_or]
      split <;> simp

theorem mapSet_nodup (m : UserMap) (k v : Str) (h : (m.map Prod.fst).Nodup) :
    ((mapSet m k v).map Prod.fst).Nodup := by
  rw [mapSet_keys]
  split
  · exact h
  · rename_i hk
    rw [List.nodup_append]
    refine ⟨h, List.nodup_singleton k, ?_⟩
    intro a ha hb
    rw [List.mem_singleton] at hb
    subst hb
    exact hk ha

theorem mapSet_ne_nil (m : UserMap) (k v : Str) : mapSet m k v ≠ [] := by
  cases m with
  | nil => simp [mapSet]
  | cons kv rest =>
    obtain ⟨k0, v0⟩ := kv
    rw [mapSet]
    split <;> simp

theorem mapSet_fresh (m : UserMap) (k v : Str) (h : k ∉ m.map Prod.fst) :
    mapSet m k v = m ++ [(k, v)] := by
  induction m with
  | nil => rfl
  | cons kv rest ih =>
    obtain ⟨k0, v0⟩ := kv
    have h0 : ¬ k0 = k := fun e => h (by simp [e])
    have hr : k ∉ rest.map Prod.fst := fun e => h (by simp [List.map_cons, e])
    rw [mapSet, if_neg h0, ih hr]
    rfl

theorem mem_iff_mapGet (m : UserMap) (h : (m.map Prod.fst).Nodup) (k v : Str) :
    mapGet m k = some v ↔ (k, v) ∈ m := by
  induction m with
  | nil => simp [mapGet]
  | cons kv rest ih =>
    obtain ⟨k0, v0⟩ := kv
    rw [List.map_cons, List.nodup_cons] at h
    by_cases h0 : k0 = k
    · subst h0
      have hnot : (k0, v) ∉ rest := fun hm =>
        h.1 (List.mem_map.2 ⟨(k0, v), hm, rfl⟩)
      simp only [mapGet, if_true, List.mem_cons, hnot, or_false, Option.some.injEq,
        Prod.mk.injEq, true_and]
      exact eq_comm
    · have h0' : ¬ k = k0 := fun e => h0 e.symm
      simp only [mapGet, if_neg h0, List.mem_cons, Prod.mk.injEq, h0', false_and, false_or]
      exact ih h.2

theorem filter_key_length (m : UserMap) (h : (m.map Prod.fst).Nodup) (k v : Str)
    (hmem : (k, v) ∈ m) : (m.filter (fun kv => kv.1 = k)).length = 1 := by
  induction m with
  | nil => simp at hmem
  | cons kv rest ih =>
    obtain ⟨k0, v0⟩ := kv
    rw [List.map_cons, List.nodup_cons] at h
    by_cases h0 : k0 = k
    · subst h0
      have hnone : rest.filter (fun kv => decide (kv.1 = k0)) = [] := by
        rw [List.filter_eq_nil_iff]
        intro kv hkv hk
        exact h.1 (List.mem_map.2 ⟨kv, hkv, by simpa using hk⟩)
      simp [List.filter_cons, hnone]
    · have hrest : (k, v) ∈ rest := by
        rcases List.mem_cons.1 hmem with e | e
        · exact absurd (congrArg Prod.fst e).symm h0
        · exact e
      simp only [List.filter_cons, h0, decide_False, Bool.false_eq_true, if_false]
      exact ih h.2 hrest

/-! ## Lemmas on `storeOf` -/

theorem storeOf_cons_blank (seg : Str) (rest : List Str) (m : UserMap)
    (h : isBlank seg = true) : storeOf (seg :: rest) m = storeOf rest m := by
  simp [storeOf, h]

theorem storeOf_cons (seg : Str) (rest : List Str) (m : UserMap)
    (h : isBlank seg = false) :
    storeOf (seg :: rest) m = storeOf rest (mapSet m (segUser seg) (segPass seg)) := by
  simp [storeOf, h]

theorem storeOf_append (xs ys : List Str) (m : UserMap) :
    storeOf (xs ++ ys) m = storeOf ys (storeOf xs m) := by
  simp [storeOf, List.filter_append, List.foldl_append]

theorem storeOf_nodup (segs : List Str) (m : UserMap) (h : (m.map Prod.fst).Nodup) :
    ((storeOf segs m).map Prod.fst).Nodup := by
  induction segs generalizing m with
  | nil => exact h
  | cons seg rest ih =>
    by_cases hb : isBlank seg = true
    · rw [storeOf_cons_blank _ _ _ hb]
      exact ih m h
    · rw [storeOf_cons _ _ _ (by simpa using hb)]
      exact ih _ (mapSet_nodup m _ _ h)

theorem storeOf_ne_nil_of_ne_nil (segs : List Str) (m : UserMap) (h : m ≠ []) :
    storeOf segs m ≠ [] := by
  induction segs generalizing m with
  | nil => exact h
  | cons seg rest ih =>
    by_cases hb : isBlank seg = true
    · rw [storeOf_cons_blank _ _ _ hb]
      exact ih m h
    · rw [storeOf_cons _ _ _ (by simpa using hb)]
      exact ih _ (mapSet_ne_nil m _ _)

theorem storeOf_ne_nil (segs : List Str) (m : UserMap)
    (h : ∃ seg ∈ segs, isBlank seg = false) : storeOf segs m ≠ [] := by
  induction segs generalizing m with
  | nil => simp at h
  | cons seg rest ih =>
    by_cases hb : isBlank seg = true
    · rw [storeOf_cons_blank _ _ _ hb]
      obtain ⟨t, ht, htb⟩ := h
      rcases List.mem_cons.1 ht with rfl | ht
      · rw [hb] at htb
        cases htb
      · exact ih m ⟨t, ht, htb⟩
    · rw [storeOf_cons _ _ _ (by simpa using hb)]
      exact storeOf_ne_nil_of_ne_nil rest _ (mapSet_ne_nil m _ _)

theorem storeOf_all_blank (segs : List Str) (m : UserMap)
    (h : ∀ seg ∈ segs, isBlank seg = true) : storeOf segs m = m := by
  induction segs generalizing m with
  | nil => rfl
  | cons seg rest ih =>
    rw [storeOf_cons_blank _ _ _ (h seg (List.mem_cons_self _ _))]
    exact ih m (fun t ht => h t (List.mem_cons_of_mem _ ht))

theorem mapGet_storeOf_other (segs : List Str) (m : UserMap) (u : Str)
    (h : ∀ t ∈ segs, isBlank t = false → segUser t ≠ u) :
    mapGet (storeOf segs m) u = mapGet m u := by
  induction segs generalizing m with
  | nil => rfl
  | cons seg rest ih =>
    have hrest : ∀ t ∈ rest, isBlank t = false → segUser t ≠ u :=
      fun t ht => h t (List.mem_cons_of_mem _ ht)
    by_cases hb : isBlank seg = true
    · rw [storeOf_cons_blank _ _ _ hb]
      exact ih m hrest
    · have hb' : isBlank seg = false := by simpa using hb
      rw [storeOf_cons _ _ _ hb', ih _ hrest, mapGet_mapSet,
        if_neg (h seg (List.mem_cons_self _ _) hb')]

/-- On a non-empty configuration string `parseUsers` is the loop over its
segments followed by the empty-store check. -/
theorem parseUsers_eq (s : Str) (hs : s ≠ []) :
    parseUsers s =
      match (Split s ',').find? badSegment with
      | some seg => .error (segError seg)
      | none =>
        if storeOf (Split s ',') [] = [] then .error .noUsers
        else .ok (storeOf (Split s ',') []) := by
  rw [parseUsers, if_neg hs, parseLoop_eq]
  cases (Split s ',').find? badSegment with
  | some seg => rfl
  | none =>
    simp only [mapLen, List.length_eq_zero]

/-! ## Well-formed configuration strings -/

theorem takeWhile_before (u p : Str) (c : Char) (h : c ∉ u) :
    (u ++ c :: p).takeWhile (fun x => x ≠ c) = u := by
  induction u with
  | nil => simp
  | cons y ys ih =>
    have hy : decide (y ≠ c) = true := by
      simpa using fun e : y = c => h (by simp [e])
    have hys : c ∉ ys := fun e => h (List.mem_cons_of_mem _ e)
    simp only [List.cons_append, List.takeWhile_cons, hy, if_true, ih hys]

theorem dropWhile_before (u p : Str) (c : Char) (h : c ∉ u) :
    (u ++ c :: p).dropWhile (fun x => x ≠ c) = c :: p := by
  induction u with
  | nil => simp
  | cons y ys ih =>
    have hy : decide (y ≠ c) = true := by
      simpa using fun e : y = c => h (by simp [e])
    have hys : c ∉ ys := fun e => h (List.mem_cons_of_mem _ e)
    simp only [List.cons_append, List.dropWhile_cons, hy, if_true, ih hys]

theorem hasOuterSpace_render (u p : Str) (hu : validUser u) (hp : validPass p) :
    hasOuterSpace (u ++ [':'] ++ p) = false := by
  obtain ⟨hu0, -, -, hu3⟩ := hu
  obtain ⟨hp0, -, hp2⟩ := hp
  simp only [hasOuterSpace, Bool.or_eq_false_iff] at hu3 hp2 ⊢
  constructor
  · rw [List.append_assoc, List.head?_append_of_ne_nil _ hu0]
    exact hu3.1
  · rw [List.getLast?_append_of_ne_nil _ hp0]
    exact hp2.2

theorem TrimSpace_render (u p : Str) (hu : validUser u) (hp : validPass p) :
    TrimSpace (u ++ [':'] ++ p) = u ++ [':'] ++ p :=
  TrimSpace_id _ (hasOuterSpace_render u p hu hp)

theorem segUser_render (u p : Str) (hu : validUser u) (hp : validPass p) :
    segUser (u ++ [':'] ++ p) = u := by
  rw [segUser, TrimSpace_render u p hu hp, List.append_assoc, List.singleton_append,
    takeWhile_before u p ':' hu.2.1]
  exact TrimSpace_id u hu.2.2.2

theorem segPass_render (u p : Str) (hu : validUser u) (hp : validPass p) :
    segPass (u ++ [':'] ++ p) = p := by
  rw [segPass, TrimSpace_render u p hu hp, List.append_assoc, List.singleton_append,
    dropWhile_before u p ':' hu.2.1]
  exact TrimSpace_id p hp.2.2

theorem isBlank_render (u p : Str) (hu : validUser u) (hp : validPass p) :
    isBlank (u ++ [':'] ++ p) = false := by
  by_contra h
  have hb : isBlank (u ++ [':'] ++ p) = true := by simpa using h
  have := TrimSpace_blank _ hb
  rw [TrimSpace_render u p hu hp] at this
  simp at this

theorem badSegment_render (u p : Str) (hu : validUser u) (hp : validPass p) :
    badSegment (u ++ [':'] ++ p) = false := by
  by_contra h
  have hb : badSegment (u ++ [':'] ++ p) = true := by simpa using h
  rw [badSegment_iff, segUser_render u p hu hp, segPass_render u p hu hp,
    TrimSpace_render u p hu hp] at hb
  rcases hb.2 with h1 | h1 | h1
  · exact h1 (by simp)
  · exact hu.1 h1
  · exact hp.1 h1

theorem storeOf_render (ps : List (Str × Str)) (m : UserMap)
    (hwf : ∀ up ∈ ps, validUser up.1 ∧ validPass up.2)
    (hnd : ((m ++ ps).map Prod.fst).Nodup) :
    storeOf (ps.map (fun up => up.1 ++ [':'] ++ up.2)) m = m ++ ps := by
  induction ps generalizing m with
  | nil => simp [storeOf]
  | cons up rest ih =>
    obtain ⟨u, p⟩ := up
    obtain ⟨hu, hp⟩ := hwf (u, p) (List.mem_cons_self _ _)
    have hrest : ∀ up ∈ rest, validUser up.1 ∧ validPass up.2 :=
      fun up h => hwf up (List.mem_cons_of_mem _ h)
    have hfresh : u ∉ m.map Prod.fst := by
      intro hmem
      rw [List.map_append, List.nodup_append] at hnd
      exact hnd.2.2 hmem (by simp)
    rw [List.map_cons, storeOf_cons _ _ _ (isBlank_render u p hu hp)]
    simp only [segUser_render u p hu hp, segPass_render u p hu hp]
    rw [mapSet_fresh m u p hfresh, ih (m ++ [(u, p)]) hrest (by simpa using hnd)]
    simp

theorem renderUsers_segments (ps : List (Str × Str)) (hne : ps ≠ [])
    (hwf : ∀ up ∈ ps, validUser up.1 ∧ validPass up.2) :
    Split (renderUsers ps) ',' = ps.map (fun up => up.1 ++ [':'] ++ up.2) := by
  apply Split_Join
  · simpa using hne
  · intro seg hseg
    obtain ⟨up, hup, rfl⟩ := List.mem_map.1 hseg
    obtain ⟨hu, hp⟩ := hwf up hup
    intro hmem
    rcases List.mem_append.1 hmem with h | h
    · rcases List.mem_append.1 h with h | h
      · exact hu.2.2.1 h
      · simp at h
    · exact hp.2.1 h

/-! ## Padding -/

theorem isBlank_no_comma (z : Str) (h : isBlank z = true) : ',' ∉ z := by
  intro hmem
  have := (List.all_eq_true.1 h) ',' hmem
  exact absurd this (by decide)

theorem isBlank_pad (a x b : Str) (ha : isBlank a = true) (hb : isBlank b = true) :
    isBlank (a ++ x ++ b) = isBlank x := by
  simp only [isBlank, List.all_append] at *
  simp [ha, hb]

theorem segUser_pad (a x b : Str) (ha : isBlank a = true) (hb : isBlank b = true) :
    segUser (a ++ x ++ b) = segUser x := by
  simp only [segUser, TrimSpace_pad a x b ha hb]

theorem segPass_pad (a x b : Str) (ha : isBlank a = true) (hb : isBlank b = true) :
    segPass (a ++ x ++ b) = segPass x := by
  simp only [segPass, TrimSpace_pad a x b ha hb]

theorem badSegment_pad (a x b : Str) (ha : isBlank a = true) (hb : isBlank b = true) :
    badSegment (a ++ x ++ b) = badSegment x := by
  simp only [badSegment, segUser_pad a x b ha hb, segPass_pad a x b ha hb,
    TrimSpace_pad a x b ha hb]

theorem segError_pad (a x b : Str) (ha : isBlank a = true) (hb : isBlank b = true) :
    segError (a ++ x ++ b) = segError x := by
  simp only [segError, TrimSpace_pad a x b ha hb]

theorem parseLoop_padded (xs ys : List Str) (h : Padded xs ys) (m : UserMap) :
    parseLoop ys m = parseLoop xs m := by
  induction h generalizing m with
  | nil => rfl
  | pad a b x xs ys ha hb _ ih =>
    rw [parseLoop_cons, parseLoop_cons, isBlank_pad a x b ha hb, badSegment_pad a x b ha hb,
      segError_pad a x b ha hb, segUser_pad a x b ha hb, segPass_pad a x b ha hb, ih, ih]
  | blank z xs ys hz _ ih =>
    rw [parseLoop_cons, if_pos hz, ih]

theorem Padded_no_comma (xs ys : List Str) (h : Padded xs ys)
    (hx : ∀ x ∈ xs, ',' ∉ x) : ∀ y ∈ ys, ',' ∉ y := by
  induction h with
  | nil => simp
  | pad a b x xs ys ha hb _ ih =>
    intro y hy
    rcases List.mem_cons.1 hy with rfl | hy
    · intro hmem
      rcases List.mem_append.1 hmem with h | h
      · rcases List.mem_append.1 h with h | h
        · exact isBlank_no_comma a ha h
        · exact hx x (List.mem_cons_self _ _) h
      · exact isBlank_no_comma b hb h
    · exact ih (fun t ht => hx t (List.mem_cons_of_mem _ ht)) y hy
  | blank z xs ys hz _ ih =>
    intro y hy
    rcases List.mem_cons.1 hy with rfl | hy
    · exact isBlank_no_comma _ hz
    · exact ih hx y hy

theorem Padded_all_blank (xs ys : List Str) (h : Padded xs ys)
    (hy : ∀ y ∈ ys, isBlank y = true) : ∀ x ∈ xs, isBlank x = true := by
  induction h with
  | nil => simp
  | pad a b x xs ys ha hb _ ih =>
    intro t ht
    rcases List.mem_cons.1 ht with rfl | ht
    · rw [← isBlank_pad a t b ha hb]
      exact hy _ (List.mem_cons_self _ _)
    · exact ih (fun y h => hy y (List.mem_cons_of_mem _ h)) t ht
  | blank z xs ys hz _ ih =>
    exact ih (fun y h => hy y (List.mem_cons_of_mem _ h))

theorem Padded_ne_nil (xs ys : List Str) (h : Padded xs ys) (hx : xs ≠ []) : ys ≠ [] := by
  cases h with
  | nil => exact absurd rfl hx
  | pad a b x xs ys ha hb _ => simp
  | blank z xs ys hz _ => simp

/-! ## Theorems on `parseUsers` -/

theorem ne_nil_of_nonblank_segment (s : Str)
    (h : ∃ seg ∈ Split s ',', isBlank seg = false) : s ≠ [] := by
  rintro rfl
  obtain ⟨seg, hseg, hb⟩ := h
  simp only [Split, List.mem_singleton] at hseg
  subst hseg
  simp [isBlank] at hb

theorem ne_nil_of_bad_segment (s : Str)
    (h : ∃ seg ∈ Split s ',', badSegment seg = true) : s ≠ [] := by
  rintro rfl
  obtain ⟨seg, hseg, hb⟩ := h
  simp only [Split, List.mem_singleton] at hseg
  subst hseg
  exact absurd hb (by decide)

theorem segError_cases (seg : Str) :
    segError seg = .badFormat (TrimSpace seg) ∨ segError seg = .emptyField (TrimSpace seg) := by
  unfold segError
  split
  · exact Or.inr rfl
  · exact Or.inl rfl

theorem segError_message (seg : Str) : TrimSpace seg <:+: (segError seg).message := by
  unfold segError
  split
  · exact ⟨"用户名/密码不能为空：".toList, [], List.append_nil _⟩
  · exact ⟨"用户参数格式错误：".toList, "（正确格式：user:pass,user2:pass2）".toList, rfl⟩

/-- C1. A well-formed configuration `u_1:p_1,...,u_n:p_n` (at least one pair,
usernames pairwise distinct, no username with a colon, no field empty, with a
comma or with outer white space) is accepted, and the store returned holds
exactly the pairs given: a key has a password in the store if and only if the
pair is in the list, and the store has as many entries as the list.  The
password is kept whole, colons included. -/
theorem parseUsers_wellformed (ps : List (Str × Str)) (hne : ps ≠ [])
    (hdistinct : (ps.map Prod.fst).Nodup)
    (hwf : ∀ up ∈ ps, validUser up.1 ∧ validPass up.2) :
    ∃ m, parseUsers (renderUsers ps) = .ok m ∧
      (∀ u p, mapGet m u = some p ↔ (u, p) ∈ ps) ∧ mapLen m = ps.length := by
  have hsegs := renderUsers_segments ps hne hwf
  have hs : renderUsers ps ≠ [] := by
    intro h
    rw [h] at hsegs
    cases ps with
    | nil => exact hne rfl
    | cons up rest =>
      simp only [Split, List.map_cons, List.cons.injEq] at hsegs
      have := hsegs.1
      simp at this
  have hfind : (Split (renderUsers ps) ',').find? badSegment = none := by
    rw [hsegs, List.find?_eq_none]
    intro seg hseg
    obtain ⟨up, hup, rfl⟩ := List.mem_map.1 hseg
    obtain ⟨hu, hp⟩ := hwf up hup
    rw [badSegment_render up.1 up.2 hu hp]
    exact Bool.false_ne_true
  have hstore : storeOf (Split (renderUsers ps) ',') [] = ps := by
    rw [hsegs]
    simpa using storeOf_render ps [] hwf (by simpa using hdistinct)
  refine ⟨ps, ?_, fun u p => mem_iff_mapGet ps hdistinct u p, rfl⟩
  rw [parseUsers_eq _ hs, hfind, hstore]
  simp [hne]

/-- Witness for C1: the configuration `alice:pass:word` gives the store with
the single entry `alice -> pass:word`. -/
theorem parseUsers_wellformed_witness :
    ∃ m, parseUsers "alice:pass:word".toList = .ok m ∧
      (∀ u p, mapGet m u = some p ↔ (u, p) ∈ [("alice".toList, "pass:word".toList)]) ∧
      mapLen m = 1 :=
  parseUsers_wellformed [("alice".toList, "pass:word".toList)] (by decide) (by decide)
    (by decide)

/-- C2. When some comma-separated segment is malformed (non-empty after
trimming, and without a colon or with an empty username or password),
`parseUsers` ends with a fatal error raised for the first such segment, whose
trimmed text is part of the diagnostic.  Conversely a non-empty input without
a malformed segment and with at least one non-blank segment is accepted.
`a:1,bad` and `:1` are both rejected. -/
theorem parseUsers_malformed (s : Str) :
    ((∃ seg ∈ Split s ',', badSegment seg = true) →
      ∃ pre first post e, Split s ',' = pre ++ first :: post ∧
        (∀ t ∈ pre, badSegment t = false) ∧ badSegment first = true ∧
        parseUsers s = .error e ∧
        (e = .badFormat (TrimSpace first) ∨ e = .emptyField (TrimSpace first)) ∧
        TrimSpace first <:+: e.message) ∧
    (s ≠ [] → (∀ seg ∈ Split s ',', badSegment seg = false) →
      (∃ seg ∈ Split s ',', TrimSpace seg ≠ []) → ∃ m, parseUsers s = .ok m) ∧
    parseUsers "a:1,bad".toList = .error (.badFormat "bad".toList) ∧
    parseUsers ":1".toList = .error (.emptyField ":1".toList) := by
  refine ⟨?_, ?_, by decide, by decide⟩
  · intro h
    have hs := ne_nil_of_bad_segment s h
    obtain ⟨seg, hseg, hbad⟩ := h
    cases hf : (Split s ',').find? badSegment with
    | none =>
      rw [List.find?_eq_none] at hf
      exact absurd hbad (hf seg hseg)
    | some first =>
      obtain ⟨hb, pre, post, hsplit, hpre⟩ := List.find?_eq_some.1 hf
      refine ⟨pre, first, post, segError first, hsplit, ?_, hb, ?_, segError_cases first,
        segError_message first⟩
      · intro t ht
        simpa using hpre t ht
      · rw [parseUsers_eq s hs, hf]
  · intro hs hgood hnb
    have hf : (Split s ',').find? badSegment = none := by
      rw [List.find?_eq_none]
      intro seg hseg
      simp [hgood seg hseg]
    have hstore : storeOf (Split s ',') [] ≠ [] := by
      apply storeOf_ne_nil
      obtain ⟨seg, hseg, hne⟩ := hnb
      refine ⟨seg, hseg, ?_⟩
      by_contra hb
      exact hne (TrimSpace_blank seg (by simpa using hb))
    refine ⟨storeOf (Split s ',') [], ?_⟩
    rw [parseUsers_eq s hs, hf]
    simp [hstore]

/-- Witness for C2: `a:1,bad` has the malformed segment `bad`, and is rejected
with the error raised for it. -/
theorem parseUsers_malformed_witness :
    ∃ pre first post e, Split "a:1,bad".toList ',' = pre ++ first :: post ∧
      (∀ t ∈ pre, badSegment t = false) ∧ badSegment first = true ∧
      parseUsers "a:1,bad".toList = .error e ∧
      (e = .badFormat (TrimSpace first) ∨ e = .emptyField (TrimSpace first)) ∧
      TrimSpace first <:+: e.message :=
  (parseUsers_malformed "a:1,bad".toList).1 ⟨"bad".toList, by decide, by decide⟩

/-- C6. On an accepted input the usernames of the store are pairwise distinct,
and a segment that is the last one with its username (no later non-blank
segment has the same username) decides the stored password: the store maps
that username to that segment's password.  `a:1,a:2` gives exactly
`a -> 2`. -/
theorem parseUsers_last_wins (s : Str) (m : UserMap) (h : parseUsers s = .ok m) :
    (m.map Prod.fst).Nodup ∧
    (∀ pre seg post, Split s ',' = pre ++ seg :: post → isBlank seg = false →
      (∀ t ∈ post, isBlank t = false → segUser t ≠ segUser seg) →
      mapGet m (segUser seg) = some (segPass seg) ∧
        (m.filter (fun kv => kv.1 = segUser seg)).length = 1) ∧
    parseUsers "a:1,a:2".toList = .ok [("a".toList, "2".toList)] := by
  by_cases hs : s = []
  · subst hs
    have hm : m = [("admin".toList, "123456".toList)] := by
      have : parseUsers [] = .ok [("admin".toList, "123456".toList)] := by decide
      rw [this] at h
      cases h
      rfl
    subst hm
    refine ⟨by decide, ?_, by decide⟩
    intro pre seg post hsplit hb
    have hmem : seg ∈ Split [] ',' := by
      rw [hsplit]
      simp
    simp only [Split, List.mem_singleton] at hmem
    subst hmem
    simp [isBlank] at hb
  · rw [parseUsers_eq s hs] at h
    cases hf : (Split s ',').find? badSegment with
    | some first =>
      rw [hf] at h
      cases h
    | none =>
      rw [hf] at h
      simp only at h
      split at h
      · cases h
      · cases h
        have hnd : ((storeOf (Split s ',') []).map Prod.fst).Nodup :=
          storeOf_nodup _ [] (by simp)
        refine ⟨hnd, ?_, by decide⟩
        intro pre seg post hsplit hb hlast
        have hget : mapGet (storeOf (Split s ',') []) (segUser seg) = some (segPass seg) := by
          rw [hsplit, storeOf_append, storeOf_cons _ _ _ hb,
            mapGet_storeOf_other post _ _ hlast, mapGet_mapSet, if_pos rfl]
        exact ⟨hget, filter_key_length _ hnd _ _ ((mem_iff_mapGet _ hnd _ _).1 hget)⟩

/-- Witness for C6: on `a:1,a:2` the second segment is the last one of user
`a`, and the store maps `a` to `2`, once. -/
theorem parseUsers_last_wins_witness :
    mapGet [("a".toList, "2".toList)] (segUser "a:2".toList) = some (segPass "a:2".toList) ∧
      ([("a".toList, "2".toList)].filter
        (fun kv => kv.1 = segUser "a:2".toList)).length = 1 :=
  (parseUsers_last_wins "a:1,a:2".toList [("a".toList, "2".toList)] (by decide)).2.1
    ["a:1".toList] "a:2".toList [] (by decide) (by decide) (by decide)

/-- C8. The empty configuration string is accepted, and the store returned
has exactly one entry, `admin -> 123456`: its length is one and a key has a
password in it only as that pair. -/
theorem parseUsers_default_account :
    ∃ m, parseUsers [] = .ok m ∧ mapLen m = 1 ∧
      ∀ u p, mapGet m u = some p ↔ (u = "admin".toList ∧ p = "123456".toList) := by
  refine ⟨[("admin".toList, "123456".toList)], by decide, rfl, ?_⟩
  intro u p
  rw [mem_iff_mapGet _ (by decide)]
  simp

/-- C9. For an input with at least one non-blank segment, white space added
around segments and blank segments inserted anywhere in the comma-separated
list do not change the outcome of `parseUsers`: the same store, or the same
fatal error. -/
theorem parseUsers_padding (s : Str) (ys : List Str)
    (hnb : ∃ seg ∈ Split s ',', isBlank seg = false)
    (hpad : Padded (Split s ',') ys) :
    parseUsers (Join ys [',']) = parseUsers s := by
  have hs : s ≠ [] := ne_nil_of_nonblank_segment s hnb
  have hys : ys ≠ [] := Padded_ne_nil _ _ hpad (Split_ne_nil s ',')
  have hsplit : Split (Join ys [',']) ',' = ys :=
    Split_Join ys ',' hys (Padded_no_comma _ _ hpad (Split_no_sep s ','))
  have hj : Join ys [','] ≠ [] := by
    intro hnil
    rw [hnil] at hsplit
    have hall : ∀ y ∈ ys, isBlank y = true := by
      rw [← hsplit]
      decide
    obtain ⟨seg, hseg, hb⟩ := hnb
    rw [Padded_all_blank _ _ hpad hall seg hseg] at hb
    cases hb
  rw [parseUsers, if_neg hj, hsplit, parseLoop_padded _ _ hpad, parseUsers, if_neg hs]

/-- Witness for C9: ` a:1 , ,b:2` is `a:1,b:2` with white space around the
first segment and a blank segment inserted. -/
theorem parseUsers_padding_witness :
    parseUsers (Join [" a:1 ".toList, " ".toList, "b:2".toList] [',']) =
      parseUsers "a:1,b:2".toList :=
  parseUsers_padding "a:1,b:2".toList [" a:1 ".toList, " ".toList, "b:2".toList]
    ⟨"a:1".toList, by decide, by decide⟩
    (Padded.pad " ".toList " ".toList "a:1".toList _ _ (by decide) (by decide)
      (Padded.blank " ".toList _ _ (by decide)
        (Padded.pad [] [] "b:2".toList _ _ (by decide) (by decide) Padded.nil)))

/-- C10, counterexample. The input `,` is not empty and has no malformed
segment, yet it is rejected by the empty-store check at the end of
`parseUsers`. -/
theorem parseUsers_only_comma :
    ",".toList ≠ [] ∧ (∀ seg ∈ Split ",".toList ',', badSegment seg = false) ∧
      parseUsers ",".toList = .error .noUsers := by
  decide

/-- C10, amended. On a non-empty input the empty-store check at the end of
`parseUsers` fires exactly when every comma-separated segment is blank; and
every non-empty input either fails at a malformed segment, or fails at the
empty-store check, or is accepted with a store of at least one entry. -/
theorem parseUsers_final_check (s : Str) (hs : s ≠ []) :
    (parseUsers s = .error .noUsers ↔ ∀ seg ∈ Split s ',', isBlank seg = true) ∧
    ((∃ seg ∈ Split s ',', badSegment seg = true ∧
        (parseUsers s = .error (.badFormat (TrimSpace seg)) ∨
          parseUsers s = .error (.emptyField (TrimSpace seg)))) ∨
      parseUsers s = .error .noUsers ∨
      ∃ m, parseUsers s = .ok m ∧ 1 ≤ mapLen m) := by
  have hp := parseUsers_eq s hs
  cases hf : (Split s ',').find? badSegment with
  | some first =>
    rw [hf] at hp
    simp only at hp
    have hbad : badSegment first = true := List.find?_some hf
    have hmem : first ∈ Split s ',' := List.mem_of_find?_eq_some hf
    constructor
    · constructor
      · intro h
        rw [hp] at h
        rcases segError_cases first with e | e <;> rw [e] at h <;> cases h
      · intro hall
        have hb := hall first hmem
        rw [badSegment_iff, TrimSpace_blank first hb] at hbad
        exact absurd rfl hbad.1
    · left
      refine ⟨first, hmem, hbad, ?_⟩
      rcases segError_cases first with e | e
      · exact Or.inl (by rw [hp, e])
      · exact Or.inr (by rw [hp, e])
  | none =>
    rw [hf] at hp
    simp only at hp
    by_cases hall : ∀ seg ∈ Split s ',', isBlank seg = true
    · have hstore : storeOf (Split s ',') [] = [] := storeOf_all_blank _ _ hall
      rw [if_pos hstore] at hp
      exact ⟨⟨fun _ => hall, fun _ => hp⟩, Or.inr (Or.inl hp)⟩
    · have hex : ∃ seg ∈ Split s ',', isBlank seg = false := by
        push_neg at hall
        obtain ⟨seg, hseg, hb⟩ := hall
        exact ⟨seg, hseg, by simpa using hb⟩
      have hstore : storeOf (Split s ',') [] ≠ [] := storeOf_ne_nil _ _ hex
      rw [if_neg hstore] at hp
      refine ⟨⟨fun h => ?_, fun h => absurd h hall⟩, Or.inr (Or.inr ⟨_, hp, ?_⟩)⟩
      · rw [hp] at h
        cases h
      · exact List.length_pos.2 hstore

/-- Witness for C10, amended: the non-empty input ` , ` has blank segments
only and is rejected by the empty-store check. -/
theorem parseUsers_final_check_witness :
    parseUsers " , ".toList = .error .noUsers ↔
      ∀ seg ∈ Split " , ".toList ',', isBlank seg = true :=
  (parseUsers_final_check " , ".toList (by decide)).1

/-! ## Theorems on `getClientIP` -/

theorem IndexByte_none (s : Str) (c : Char) (h : c ∉ s) : IndexByte s c = none := by
  induction s with
  | nil => rfl
  | cons x xs ih =>
    have hx : ¬ x = c := fun e => h (by simp [e])
    have hxs : c ∉ xs := fun e => h (List.mem_cons_of_mem _ e)
    rw [IndexByte, if_neg hx, ih hxs]
    rfl

theorem IndexByte_append (pre rest : Str) (c : Char) (h : c ∉ pre) :
    IndexByte (pre ++ c :: rest) c = some pre.length := by
  induction pre with
  | nil => simp [IndexByte]
  | cons x xs ih =>
    have hx : ¬ x = c := fun e => h (by simp [e])
    have hxs : c ∉ xs := fun e => h (List.mem_cons_of_mem _ e)
    rw [List.cons_append, IndexByte, if_neg hx, ih hxs]
    rfl

theorem LastIndexByte_none (s : Str) (c : Char) (h : c ∉ s) : LastIndexByte s c = none := by
  induction s with
  | nil => rfl
  | cons x xs ih =>
    have hx : ¬ x = c := fun e => h (by simp [e])
    have hxs : c ∉ xs := fun e => h (List.mem_cons_of_mem _ e)
    rw [LastIndexByte, ih hxs]
    simp [hx]

theorem LastIndexByte_append (pre rest : Str) (c : Char) (h : c ∉ rest) :
    LastIndexByte (pre ++ c :: rest) c = some pre.length := by
  induction pre with
  | nil =>
    rw [List.nil_append, LastIndexByte, LastIndexByte_none rest c h]
    simp
  | cons x xs ih =>
    rw [List.cons_append, LastIndexByte, ih]
    rfl

theorem SplitHostPort_plain (host port : Str)
    (hh : ∀ c ∈ host, isDelimiter c = false) (hp : ∀ c ∈ port, isDelimiter c = false) :
    SplitHostPort (host ++ ':' :: port) = .ok (host, port) := by
  have nd : ∀ (l : Str) (d : Char), isDelimiter d = true →
      (∀ c ∈ l, isDelimiter c = false) → d ∉ l := by
    intro l d hd hl hmem
    rw [hl d hmem] at hd
    cases hd
  have hlast := LastIndexByte_append host port ':' (nd port ':' (by decide) hp)
  have hhead : ¬ (host ++ ':' :: port).head? = some '[' := by
    cases host with
    | nil => simp
    | cons x xs =>
      intro h
      have hx : x = '[' := by simpa using h
      have := hh x (List.mem_cons_self _ _)
      rw [hx] at this
      exact absurd this (by decide)
  have hopen : '[' ∉ host ++ ':' :: port := by
    intro h
    rcases List.mem_append.1 h with h | h
    · exact nd host '[' (by decide) hh h
    · rcases List.mem_cons.1 h with h | h
      · exact absurd h (by decide)
      · exact nd port '[' (by decide) hp h
  have hclose : ']' ∉ host ++ ':' :: port := by
    intro h
    rcases List.mem_append.1 h with h | h
    · exact nd host ']' (by decide) hh h
    · rcases List.mem_cons.1 h with h | h
      · exact absurd h (by decide)
      · exact nd port ']' (by decide) hp h
  rw [SplitHostPort, hlast]
  simp only [if_neg hhead, List.take_left', IndexByte_none host ':' (nd host ':' (by decide) hh),
    Option.isSome_none, Bool.false_eq_true, if_false, splitHostPortTail, List.drop_zero,
    IndexByte_none _ '[' hopen, IndexByte_none _ ']' hclose]
  rw [show host.length + 1 = (host ++ [':']).length by simp,
    show host ++ ':' :: port = (host ++ [':']) ++ port by simp, List.drop_left]

theorem SplitHostPort_bracketed (host port : Str)
    (hh : ∀ c ∈ host, c ≠ '[' ∧ c ≠ ']') (hp : ∀ c ∈ port, isDelimiter c = false) :
    SplitHostPort ('[' :: (host ++ ']' :: ':' :: port)) = .ok (host, port) := by
  have nd : ∀ (d : Char), isDelimiter d = true → d ∉ port := by
    intro d hd hmem
    rw [hp d hmem] at hd
    cases hd
  have hlast : LastIndexByte ('[' :: (host ++ ']' :: ':' :: port)) ':' =
      some (host.length + 2) := by
    have := LastIndexByte_append ('[' :: (host ++ [']'])) port ':' (nd ':' (by decide))
    simpa using this
  have hidx : IndexByte ('[' :: (host ++ ']' :: ':' :: port)) ']' = some (host.length + 1) := by
    have := IndexByte_append ('[' :: host) (':' :: port) ']' (by
      intro h
      rcases List.mem_cons.1 h with h | h
      · exact absurd h (by decide)
      · exact (hh _ h).2 rfl)
    simpa using this
  have hopen : '[' ∉ host ++ ']' :: ':' :: port := by
    intro h
    rcases List.mem_append.1 h with h | h
    · exact (hh _ h).1 rfl
    · rcases List.mem_cons.1 h with h | h
      · exact absurd h (by decide)
      · rcases List.mem_cons.1 h with h | h
        · exact absurd h (by decide)
        · exact nd '[' (by decide) h
  have hclose : ']' ∉ ':' :: port := by
    intro h
    rcases List.mem_cons.1 h with h | h
    · exact absurd h (by decide)
    · exact nd ']' (by decide) h
  have hdropk : List.drop (host.length + 1 + 1) ('[' :: (host ++ ']' :: ':' :: port)) =
      ':' :: port := by
    rw [show host.length + 1 + 1 = ('[' :: (host ++ [']'])).length by simp,
      show '[' :: (host ++ ']' :: ':' :: port) = ('[' :: (host ++ [']'])) ++ ':' :: port by simp,
      List.drop_left]
  have hdropi : List.drop (host.length + 2 + 1) ('[' :: (host ++ ']' :: ':' :: port)) =
      port := by
    rw [show host.length + 2 + 1 = ('[' :: (host ++ [']', ':'])).length by simp,
      show '[' :: (host ++ ']' :: ':' :: port) = ('[' :: (host ++ [']', ':'])) ++ port by simp,
      List.drop_left]
  have htake : List.drop 1 (List.take (host.length + 1) ('[' :: (host ++ ']' :: ':' :: port))) =
      host := by
    rw [List.take_succ_cons, List.take_left' rfl]
    rfl
  have hlen : ¬ host.length + 1 + 1 = ('[' :: (host ++ ']' :: ':' :: port)).length := by
    simp only [List.length_cons, List.length_append]
    omega
  rw [SplitHostPort, hlast]
  simp only [List.head?_cons, if_true, hidx, if_neg hlen, splitHostPortTail, htake, hdropk,
    hdropi, List.drop_succ_cons, List.drop_zero, IndexByte_none _ '[' hopen,
    IndexByte_none _ ']' hclose, Option.isSome_none, Bool.false_eq_true, if_false]

/-- C7. `getClientIP` is a total function; on a peer address `host:port`
whose host and port hold no colon or bracket (an IPv4 address, a hostname) it
returns the host; on `[host]:port` with a bracket-free host (an IPv6 address,
colons included) it returns the host without the brackets; and whenever
`net.SplitHostPort` reports an error, as it does for every address without a
colon, it returns the address unchanged. -/
theorem getClientIP_host_or_raw (r : Request) :
    (∀ host port, (∀ c ∈ host, isDelimiter c = false) → (∀ c ∈ port, isDelimiter c = false) →
      r.RemoteAddr = host ++ ':' :: port → getClientIP r = host) ∧
    (∀ host port, (∀ c ∈ host, c ≠ '[' ∧ c ≠ ']') → (∀ c ∈ port, isDelimiter c = false) →
      r.RemoteAddr = '[' :: (host ++ ']' :: ':' :: port) → getClientIP r = host) ∧
    (∀ e, SplitHostPort r.RemoteAddr = .error e → getClientIP r = r.RemoteAddr) ∧
    (':' ∉ r.RemoteAddr →
      SplitHostPort r.RemoteAddr = .error .missingPort ∧ getClientIP r = r.RemoteAddr) := by
  refine ⟨?_, ?_, ?_, ?_⟩
  · intro host port hh hp haddr
    rw [getClientIP, haddr, SplitHostPort_plain host port hh hp]
  · intro host port hh hp haddr
    rw [getClientIP, haddr, SplitHostPort_bracketed host port hh hp]
  · intro e he
    rw [getClientIP, he]
  · intro hc
    have he : SplitHostPort r.RemoteAddr = .error .missingPort := by
      rw [SplitHostPort, LastIndexByte_none _ ':' hc]
    exact ⟨he, by rw [getClientIP, he]⟩

/-- Witness for C7: the peer address `[::1]:8080` gives the client `::1`. -/
theorem getClientIP_host_or_raw_witness :
    getClientIP ⟨"[::1]:8080".toList, "/".toList, none⟩ = "::1".toList :=
  (getClientIP_host_or_raw ⟨"[::1]:8080".toList, "/".toList, none⟩).2.1
    "::1".toList "8080".toList (by decide) (by decide) (by decide)

/-! ## Theorems on the handler chain -/

theorem authorized_iff (users : UserMap) (r : Request) :
    authorized users r ↔
      ∃ user pass, r.BasicAuth = some (user, pass) ∧ mapGet users user = some pass := by
  unfold authorized
  cases r.BasicAuth with
  | none => simp
  | some up =>
    obtain ⟨user, pass⟩ := up
    constructor
    · intro h
      exact ⟨user, pass, rfl, h⟩
    · rintro ⟨u, q, e, h⟩
      cases e
      exact h

theorem mapGet_filter_ne (m : UserMap) (k k1 : Str) (h : k ≠ k1) :
    mapGet (m.filter (fun kv => kv.1 ≠ k1)) k = mapGet m k := by
  induction m with
  | nil => rfl
  | cons kv rest ih =>
    obtain ⟨k0, v0⟩ := kv
    by_cases h0 : k0 = k1
    · subst h0
      have : ¬ k0 = k := fun e => h e.symm
      simpa [List.filter_cons, mapGet, this] using ih
    · by_cases h2 : k0 = k
      · subst h2
        simp [List.filter_cons, mapGet, h0]
      · simpa [List.filter_cons, mapGet, h0, h2] using ih

theorem unauthorized_sent (s : World) (h : s.resp.sent = none) :
    ∃ hdr, (unauthorized s).resp.sent = some (StatusUnauthorized, hdr) ∧
      Header.Get hdr "WWW-Authenticate".toList = some challenge := by
  refine ⟨Header.Set (Header.Set (Header.Del
      (Header.Set s.resp.header "WWW-Authenticate".toList challenge) "Content-Length".toList)
      "Content-Type".toList "text/plain; charset=utf-8".toList)
      "X-Content-Type-Options".toList "nosniff".toList, ?_, ?_⟩
  · simp only [unauthorized, httpError, ResponseWriter.Write, ResponseWriter.WriteHeader, h]
  · simp only [Header.Get, Header.Set, Header.Del, mapGet_mapSet]
    rw [if_neg (by decide), if_neg (by decide), mapGet_filter_ne _ _ _ (by decide),
      mapGet_mapSet, if_pos rfl]

theorem basicAuth_none (users : UserMap) (handler : Handler) (r : Request) (s : World)
    (h : r.BasicAuth = none) :
    basicAuth users handler r s =
      unauthorized (logPrintf (noCredentialsLine (getClientIP r) r.Path) s) := by
  simp only [basicAuth, h]

theorem basicAuth_bad (users : UserMap) (handler : Handler) (r : Request) (s : World)
    (user pass : Str) (h : r.BasicAuth = some (user, pass))
    (hbad : mapGet users user ≠ some pass) :
    basicAuth users handler r s =
      unauthorized (logPrintf (badCredentialsLine (getClientIP r) user r.Path) s) := by
  simp only [basicAuth, h]
  rw [if_pos]
  cases hg : mapGet users user with
  | none => simp
  | some q =>
    right
    intro e
    apply hbad
    rw [hg, Option.getD_some] at *
    rw [e]

theorem basicAuth_good (users : UserMap) (handler : Handler) (r : Request) (s : World)
    (user pass : Str) (h : r.BasicAuth = some (user, pass))
    (hgood : mapGet users user = some pass) :
    basicAuth users handler r s =
      handler r (logPrintf (authSuccessLine (getClientIP r) user r.Path) s) := by
  simp only [basicAuth, h, hgood]
  rw [if_neg]
  simp

theorem basicAuth_not_authorized (users : UserMap) (handler : Handler) (r : Request)
    (s : World) (h : ¬ authorized users r) :
    ∃ line, basicAuth users handler r s = unauthorized (logPrintf line s) ∧
      (line = noCredentialsLine (getClientIP r) r.Path ∨
        ∃ user, line = badCredentialsLine (getClientIP r) user r.Path) := by
  cases hb : r.BasicAuth with
  | none => exact ⟨_, basicAuth_none users handler r s hb, Or.inl rfl⟩
  | some up =>
    obtain ⟨user, pass⟩ := up
    have hbad : mapGet users user ≠ some pass :=
      fun e => h ((authorized_iff users r).2 ⟨user, pass, hb, e⟩)
    exact ⟨_, basicAuth_bad users handler r s user pass hb hbad, Or.inr ⟨user, rfl⟩⟩

theorem append_ne_of_take (p A B x y : Str) (n : Nat) (hA : n ≤ A.length)
    (hB : n ≤ B.length) (h : A.take n ≠ B.take n) : p ++ A ++ x ≠ p ++ B ++ y := by
  intro e
  rw [List.append_assoc, List.append_assoc] at e
  have e2 := congrArg (List.take n) (List.append_cancel_left e)
  rw [List.take_append_of_le_length hA, List.take_append_of_le_length hB] at e2
  exact h e2

theorem noCredentialsLine_ne_accessLine (ip path path2 : Str) :
    noCredentialsLine ip path ≠ accessLine ip path2 := by
  unfold noCredentialsLine accessLine
  rw [List.append_assoc _ path]
  exact append_ne_of_take _ _ _ _ _ 3 (by decide) (by decide) (by decide)

theorem badCredentialsLine_ne_accessLine (ip user path path2 : Str) :
    badCredentialsLine ip user path ≠ accessLine ip path2 := by
  unfold badCredentialsLine accessLine
  rw [List.append_assoc _ path, List.append_assoc _ _ (path ++ _), List.append_assoc _ user]
  exact append_ne_of_take _ _ _ _ _ 3 (by decide) (by decide) (by decide)

theorem authSuccessLine_ne_accessLine (ip user path path2 : Str) :
    authSuccessLine ip user path ≠ accessLine ip path2 := by
  unfold authSuccessLine accessLine
  rw [List.append_assoc _ path, List.append_assoc _ _ (path ++ _), List.append_assoc _ user]
  exact append_ne_of_take _ _ _ _ _ 3 (by decide) (by decide) (by decide)

/-- C3. When the request carries credentials that are in the store, the
handler built by `basicAuth` is the inner handler run once on the same
request, after the success line was logged.  Otherwise the outcome is the
same whatever the inner handler is (it is not run), and a response that had
not been started has status 401 with the header `WWW-Authenticate` set to the
Basic challenge.  The outcome depends on the inner handler exactly when the
credentials are in the store. -/
theorem basicAuth_gate (users : UserMap) (handler : Handler) (r : Request) (s : World) :
    (authorized users r →
      ∃ user pass, r.BasicAuth = some (user, pass) ∧ mapGet users user = some pass ∧
        basicAuth users handler r s =
          handler r (logPrintf (authSuccessLine (getClientIP r) user r.Path) s)) ∧
    (¬ authorized users r →
      (∀ other : Handler, basicAuth users handler r s = basicAuth users other r s) ∧
      (s.resp.sent = none →
        ∃ hdr, (basicAuth users handler r s).resp.sent = some (StatusUnauthorized, hdr) ∧
          Header.Get hdr "WWW-Authenticate".toList = some challenge)) ∧
    ((∃ h1 h2 : Handler, basicAuth users h1 r s ≠ basicAuth users h2 r s) ↔
      authorized users r) := by
  refine ⟨?_, ?_, ?_⟩
  · intro ha
    obtain ⟨user, pass, hb, hg⟩ := (authorized_iff users r).1 ha
    exact ⟨user, pass, hb, hg, basicAuth_good users handler r s user pass hb hg⟩
  · intro hna
    obtain ⟨line, hline, -⟩ := basicAuth_not_authorized users handler r s hna
    constructor
    · intro other
      obtain ⟨line2, hline2, -⟩ := basicAuth_not_authorized users other r s hna
      cases hb : r.BasicAuth with
      | none =>
        rw [basicAuth_none users handler r s hb, basicAuth_none users other r s hb]
      | some up =>
        obtain ⟨user, pass⟩ := up
        have hbad : mapGet users user ≠ some pass :=
          fun e => hna ((authorized_iff users r).2 ⟨user, pass, hb, e⟩)
        rw [basicAuth_bad users handler r s user pass hb hbad,
          basicAuth_bad users other r s user pass hb hbad]
    · intro hfresh
      rw [hline]
      exact unauthorized_sent _ hfresh
  · constructor
    · rintro ⟨h1, h2, hne⟩
      by_contra hna
      apply hne
      cases hb : r.BasicAuth with
      | none =>
        rw [basicAuth_none users h1 r s hb, basicAuth_none users h2 r s hb]
      | some up =>
        obtain ⟨user, pass⟩ := up
        have hbad : mapGet users user ≠ some pass :=
          fun e => hna ((authorized_iff users r).2 ⟨user, pass, hb, e⟩)
        rw [basicAuth_bad users h1 r s user pass hb hbad,
          basicAuth_bad users h2 r s user pass hb hbad]
    · intro ha
      obtain ⟨user, pass, hb, hg⟩ := (authorized_iff users r).1 ha
      refine ⟨fun _ _ => ⟨⟨[], none, []⟩, []⟩, fun _ _ => ⟨⟨[], none, []⟩, [[]]⟩, ?_⟩
      rw [basicAuth_good users _ r s user pass hb hg, basicAuth_good users _ r s user pass hb hg]
      decide

/-- Witness for C3: with the store `alice -> Secret`, a request with the
password `secret` is not authorized, and gets status 401 with the challenge
header, whatever the inner handler is. -/
theorem basicAuth_gate_witness :
    (∀ other : Handler,
      basicAuth [("alice".toList, "Secret".toList)] (fun _ w => w)
          ⟨"10.0.0.1:4000".toList, "/".toList, some ("alice".toList, "secret".toList)⟩
          ⟨⟨[], none, []⟩, []⟩ =
        basicAuth [("alice".toList, "Secret".toList)] other
          ⟨"10.0.0.1:4000".toList, "/".toList, some ("alice".toList, "secret".toList)⟩
          ⟨⟨[], none, []⟩, []⟩) ∧
    ((⟨⟨[], none, []⟩, []⟩ : World).resp.sent = none →
      ∃ hdr, (basicAuth [("alice".toList, "Secret".toList)] (fun _ w => w)
          ⟨"10.0.0.1:4000".toList, "/".toList, some ("alice".toList, "secret".toList)⟩
          ⟨⟨[], none, []⟩, []⟩).resp.sent = some (StatusUnauthorized, hdr) ∧
        Header.Get hdr "WWW-Authenticate".toList = some challenge) :=
  (basicAuth_gate [("alice".toList, "Secret".toList)] (fun _ w => w)
    ⟨"10.0.0.1:4000".toList, "/".toList, some ("alice".toList, "secret".toList)⟩
    ⟨⟨[], none, []⟩, []⟩).2.1
    (by decide)

theorem textLines_logText (msg : Str) (h : '\n' ∉ msg) :
    textLines (logText msg) = [msg] := by
  have hlast : msg = [] ∨ msg.getLast? ≠ some '\n' := by
    by_cases hm : msg = []
    · exact Or.inl hm
    · right
      intro e
      exact h (List.mem_of_getLast?_eq_some e)
  rw [logText, if_pos hlast, textLines, Split_append_sep msg [] '\n' h]
  rfl

theorem logPrintf_single (msg : Str) (s : World) (h : '\n' ∉ msg) :
    logPrintf msg s = { s with log := s.log ++ [msg] } := by
  rw [logPrintf, textLines_logText msg h]

theorem not_mem_of_contains_false (l : Str) (c : Char) (h : l.contains c = false) :
    c ∉ l := by
  intro hm
  have e : l.contains c = true := List.elem_iff.2 hm
  rw [h] at e
  cases e

theorem singleLine_parts (r : Request) (h : singleLine r = true) :
    '\n' ∉ getClientIP r ∧ '\n' ∉ r.Path ∧
      ∀ user pass, r.BasicAuth = some (user, pass) → '\n' ∉ user := by
  unfold singleLine at h
  simp only [Bool.and_eq_true, Bool.not_eq_true'] at h
  refine ⟨not_mem_of_contains_false _ _ h.1.1, not_mem_of_contains_false _ _ h.1.2, ?_⟩
  intro user pass hb
  have h3 := h.2
  rw [hb] at h3
  simp only [Bool.not_eq_true'] at h3
  exact not_mem_of_contains_false _ _ h3

theorem noCredentialsLine_single (ip path : Str) (hip : '\n' ∉ ip) (hpath : '\n' ∉ path) :
    '\n' ∉ noCredentialsLine ip path := by
  simp only [noCredentialsLine, List.mem_append, not_or]
  exact ⟨⟨⟨⟨by decide, hip⟩, by decide⟩, hpath⟩, by decide⟩

theorem badCredentialsLine_single (ip user path : Str) (hip : '\n' ∉ ip)
    (huser : '\n' ∉ user) (hpath : '\n' ∉ path) :
    '\n' ∉ badCredentialsLine ip user path := by
  simp only [badCredentialsLine, List.mem_append, not_or]
  exact ⟨⟨⟨⟨⟨⟨by decide, hip⟩, by decide⟩, huser⟩, by decide⟩, hpath⟩, by decide⟩

theorem authSuccessLine_single (ip user path : Str) (hip : '\n' ∉ ip)
    (huser : '\n' ∉ user) (hpath : '\n' ∉ path) :
    '\n' ∉ authSuccessLine ip user path := by
  simp only [authSuccessLine, List.mem_append, not_or]
  exact ⟨⟨⟨⟨⟨⟨by decide, hip⟩, by decide⟩, huser⟩, by decide⟩, hpath⟩, by decide⟩

theorem accessLine_single (ip path : Str) (hip : '\n' ∉ ip) (hpath : '\n' ∉ path) :
    '\n' ∉ accessLine ip path := by
  simp only [accessLine, List.mem_append, not_or]
  exact ⟨⟨⟨by decide, hip⟩, by decide⟩, hpath⟩

/-- C4, counterexample. A request without credentials whose path holds a line
feed makes the chain write two physical lines, the second one an access line
for the same client, with no auth-success line before it; and with a file
server that writes a line of its own, an accepted request adds three lines
to the log. -/
theorem chain_line_feed_forges_access :
    (chain [("alice".toList, "Secret".toList)]
        (fun (_ : Unit) (_ : Request) (w : World) => w) ()
        ⟨"10.0.0.1:4000".toList, "/x)\n[10.0.0.1] 文件访问 - 路径: /secret".toList, none⟩
        ⟨⟨[], none, []⟩, []⟩).log =
      ["[10.0.0.1] 认证失败 - 未提供用户名密码 (请求路径: /x)".toList,
        accessLine "10.0.0.1".toList "/secret)".toList] ∧
    (chain [("alice".toList, "Secret".toList)]
        (fun (_ : Unit) (_ : Request) (w : World) =>
          logPrintf "http: error reading directory".toList w) ()
        ⟨"10.0.0.1:4000".toList, "/".toList, some ("alice".toList, "Secret".toList)⟩
        ⟨⟨[], none, []⟩, []⟩).log =
      [authSuccessLine "10.0.0.1".toList "alice".toList "/".toList,
        accessLine "10.0.0.1".toList "/".toList,
        "http: error reading directory".toList] := by
  constructor <;> decide

/-- C4, amended. For a request whose client identifier, path and username hold
no line feed, the lines that the auth gate and the access logger write are
either one auth-failure line alone, after which the response is the 401 one
and the file server is not run, or one auth-success line followed at once by
one access line, both with the client identifier and the path of the request,
written before the file server runs on the same request.  When the file
server writes no line of its own these are all the lines the chain adds.
Wherever the access line stands among these lines, the auth-success line
stands right before it and nothing follows. -/
theorem chain_log_order {FS : Type} (users : UserMap) (FileServer : FS → Handler) (root : FS)
    (r : Request) (s : World) (hsl : singleLine r = true) :
    ∃ emitted,
      (((emitted = [noCredentialsLine (getClientIP r) r.Path] ∨
            ∃ user, emitted = [badCredentialsLine (getClientIP r) user r.Path]) ∧
          chain users FileServer root r s =
            unauthorized { s with log := s.log ++ emitted }) ∨
        ((∃ user, emitted =
            [authSuccessLine (getClientIP r) user r.Path, accessLine (getClientIP r) r.Path]) ∧
          chain users FileServer root r s =
            FileServer root r { s with log := s.log ++ emitted })) ∧
      ((∀ r1 w, (FileServer root r1 w).log = w.log) →
        (chain users FileServer root r s).log = s.log ++ emitted) ∧
      (∀ pre post, emitted = pre ++ accessLine (getClientIP r) r.Path :: post →
        ∃ user, pre = [authSuccessLine (getClientIP r) user r.Path] ∧ post = []) := by
  obtain ⟨hip, hpath, huser⟩ := singleLine_parts r hsl
  have single : ∀ (line : Str) (pre post : List Str),
      line ≠ accessLine (getClientIP r) r.Path →
      [line] = pre ++ accessLine (getClientIP r) r.Path :: post → False := by
    intro line pre post hne e
    cases pre with
    | nil =>
      simp only [List.nil_append, List.cons.injEq] at e
      exact hne e.1
    | cons x xs =>
      have := congrArg List.length e
      simp only [List.length_cons, List.length_nil, List.length_append] at this
      omega
  cases hb : r.BasicAuth with
  | none =>
    have hc : chain users FileServer root r s =
        unauthorized { s with log := s.log ++ [noCredentialsLine (getClientIP r) r.Path] } := by
      rw [chain, basicAuth_none users _ r s hb,
        logPrintf_single _ s (noCredentialsLine_single _ _ hip hpath)]
    refine ⟨[noCredentialsLine (getClientIP r) r.Path], Or.inl ⟨Or.inl rfl, hc⟩, ?_, ?_⟩
    · intro _
      rw [hc]
      rfl
    · intro pre post e
      exact (single _ pre post (noCredentialsLine_ne_accessLine _ _ _) e).elim
  | some up =>
    obtain ⟨user, pass⟩ := up
    have hu := huser user pass hb
    by_cases hg : mapGet users user = some pass
    · have hc : chain users FileServer root r s =
          FileServer root r { s with log := s.log ++
            [authSuccessLine (getClientIP r) user r.Path,
              accessLine (getClientIP r) r.Path] } := by
        rw [chain, basicAuth_good users _ r s user pass hb hg,
          logPrintf_single _ s (authSuccessLine_single _ _ _ hip hu hpath)]
        simp only [loggingFileHandler]
        rw [logPrintf_single _ _ (accessLine_single _ _ hip hpath)]
        simp only [List.append_assoc, List.singleton_append]
      refine ⟨[authSuccessLine (getClientIP r) user r.Path,
        accessLine (getClientIP r) r.Path], Or.inr ⟨⟨user, rfl⟩, hc⟩, ?_, ?_⟩
      · intro hquiet
        rw [hc, hquiet]
      · intro pre post e
        cases pre with
        | nil =>
          simp only [List.nil_append, List.cons.injEq] at e
          exact absurd e.1 (authSuccessLine_ne_accessLine _ _ _ _)
        | cons x xs =>
          cases xs with
          | nil =>
            simp only [List.cons_append, List.nil_append, List.cons.injEq] at e
            exact ⟨user, by rw [e.1], e.2.2.symm⟩
          | cons y ys =>
            have := congrArg List.length e
            simp only [List.length_cons, List.length_nil, List.length_append] at this
            omega
    · have hc : chain users FileServer root r s =
          unauthorized { s with log := s.log ++
            [badCredentialsLine (getClientIP r) user r.Path] } := by
        rw [chain, basicAuth_bad users _ r s user pass hb hg,
          logPrintf_single _ s (badCredentialsLine_single _ _ _ hip hu hpath)]
      refine ⟨[badCredentialsLine (getClientIP r) user r.Path],
        Or.inl ⟨Or.inr ⟨user, rfl⟩, hc⟩, ?_, ?_⟩
      · intro _
        rw [hc]
        rfl
      · intro pre post e
        exact (single _ pre post (badCredentialsLine_ne_accessLine _ _ _ _) e).elim

/-- Witness for C4, amended: an accepted request for `/a.txt`, served by a
file server that answers 404. -/
theorem chain_log_order_witness :
    ∃ emitted,
      (((emitted = [noCredentialsLine "10.0.0.1".toList "/a.txt".toList] ∨
            ∃ user, emitted = [badCredentialsLine "10.0.0.1".toList user "/a.txt".toList]) ∧
          chain [("alice".toList, "Secret".toList)]
              (fun (_ : Unit) (_ : Request) (w : World) =>
                ({ w with resp := w.resp.WriteHeader 404 } : World)) ()
              ⟨"10.0.0.1:4000".toList, "/a.txt".toList,
                some ("alice".toList, "Secret".toList)⟩
              ⟨⟨[], none, []⟩, []⟩ =
            unauthorized { (⟨⟨[], none, []⟩, []⟩ : World) with log := [] ++ emitted }) ∨
        ((∃ user, emitted =
            [authSuccessLine "10.0.0.1".toList user "/a.txt".toList,
              accessLine "10.0.0.1".toList "/a.txt".toList]) ∧
          chain [("alice".toList, "Secret".toList)]
              (fun (_ : Unit) (_ : Request) (w : World) =>
                ({ w with resp := w.resp.WriteHeader 404 } : World)) ()
              ⟨"10.0.0.1:4000".toList, "/a.txt".toList,
                some ("alice".toList, "Secret".toList)⟩
              ⟨⟨[], none, []⟩, []⟩ =
            (fun (_ : Unit) (_ : Request) (w : World) =>
                ({ w with resp := w.resp.WriteHeader 404 } : World)) ()
              ⟨"10.0.0.1:4000".toList, "/a.txt".toList,
                some ("alice".toList, "Secret".toList)⟩
              { (⟨⟨[], none, []⟩, []⟩ : World) with log := [] ++ emitted })) ∧
      ((∀ r1 w, ((fun (_ : Unit) (_ : Request) (w : World) =>
            ({ w with resp := w.resp.WriteHeader 404 } : World)) () r1 w).log = w.log) →
        (chain [("alice".toList, "Secret".toList)]
            (fun (_ : Unit) (_ : Request) (w : World) =>
              ({ w with resp := w.resp.WriteHeader 404 } : World)) ()
            ⟨"10.0.0.1:4000".toList, "/a.txt".toList,
              some ("alice".toList, "Secret".toList)⟩
            ⟨⟨[], none, []⟩, []⟩).log = [] ++ emitted) ∧
      (∀ pre post, emitted = pre ++ accessLine "10.0.0.1".toList "/a.txt".toList :: post →
        ∃ user, pre = [authSuccessLine "10.0.0.1".toList user "/a.txt".toList] ∧ post = []) :=
  chain_log_order [("alice".toList, "Secret".toList)]
    (fun (_ : Unit) (_ : Request) (w : World) =>
      ({ w with resp := w.resp.WriteHeader 404 } : World)) ()
    ⟨"10.0.0.1:4000".toList, "/a.txt".toList, some ("alice".toList, "Secret".toList)⟩
    ⟨⟨[], none, []⟩, []⟩ (by decide)

/-- C5, counterexample. A path with a line feed makes the no-credentials
branch write two physical lines, and a username with a line feed makes the
bad-credentials branch write two physical lines. -/
theorem audit_line_feed_splits :
    (basicAuth [] (fun _ w => w) ⟨"10.0.0.1:4000".toList, "/a\nb".toList, none⟩
        ⟨⟨[], none, []⟩, []⟩).log =
      ["[10.0.0.1] 认证失败 - 未提供用户名密码 (请求路径: /a".toList, "b)".toList] ∧
    (basicAuth [] (fun _ w => w)
        ⟨"10.0.0.1:4000".toList, "/".toList, some ("eve\nroot".toList, "x".toList)⟩
        ⟨⟨[], none, []⟩, []⟩).log =
      ["[10.0.0.1] 认证失败 - 用户名/密码错误 (用户名: eve".toList,
        "root, 请求路径: /)".toList] := by
  constructor <;> decide

/-- C5, amended. For a request whose client identifier, path and username hold
no line feed, the auth gate writes exactly one log line of its own in each
branch: without credentials the no-credentials line, with credentials that
are not in the store the bad-credentials line (the log is the old log plus
that line), and with credentials in the store the success line, added before
the inner handler runs.  The three lines have the form `[<client-ip>] <event>
- <details>`, the client identifier being that of `getClientIP` and the
details holding the path, and the username where there is one. -/
theorem basicAuth_audit_line (users : UserMap) (handler : Handler) (r : Request) (s : World)
    (hsl : singleLine r = true) :
    (r.BasicAuth = none →
      (basicAuth users handler r s).log =
        s.log ++ [noCredentialsLine (getClientIP r) r.Path]) ∧
    (∀ user pass, r.BasicAuth = some (user, pass) → mapGet users user ≠ some pass →
      (basicAuth users handler r s).log =
        s.log ++ [badCredentialsLine (getClientIP r) user r.Path]) ∧
    (∀ user pass, r.BasicAuth = some (user, pass) → mapGet users user = some pass →
      basicAuth users handler r s =
        handler r { s with log := s.log ++ [authSuccessLine (getClientIP r) user r.Path] }) ∧
    (∀ ip user path,
      noCredentialsLine ip path =
        tagged ip "认证失败".toList ("未提供用户名密码 (请求路径: ".toList ++ path ++ ")".toList) ∧
      badCredentialsLine ip user path =
        tagged ip "认证失败".toList
          ("用户名/密码错误 (用户名: ".toList ++ user ++ ", 请求路径: ".toList ++ path ++
            ")".toList) ∧
      authSuccessLine ip user path =
        tagged ip "认证成功".toList
          ("用户名: ".toList ++ user ++ " (请求路径: ".toList ++ path ++ ")".toList)) := by
  obtain ⟨hip, hpath, huser⟩ := singleLine_parts r hsl
  refine ⟨?_, ?_, ?_, ?_⟩
  · intro hb
    rw [basicAuth_none users handler r s hb,
      logPrintf_single _ s (noCredentialsLine_single _ _ hip hpath)]
    rfl
  · intro user pass hb hbad
    rw [basicAuth_bad users handler r s user pass hb hbad,
      logPrintf_single _ s (badCredentialsLine_single _ _ _ hip (huser user pass hb) hpath)]
    rfl
  · intro user pass hb hg
    rw [basicAuth_good users handler r s user pass hb hg,
      logPrintf_single _ s (authSuccessLine_single _ _ _ hip (huser user pass hb) hpath)]
  · intro ip user path
    refine ⟨?_, ?_, ?_⟩
    · simp only [noCredentialsLine, tagged, List.append_assoc]
      rfl
    · simp only [badCredentialsLine, tagged, List.append_assoc]
      rfl
    · simp only [authSuccessLine, tagged, List.append_assoc]
      rfl

/-- Witness for C5, amended: a request for `/` without credentials adds the
no-credentials line to the log. -/
theorem basicAuth_audit_line_witness :
    (basicAuth [] (fun _ w => w) ⟨"10.0.0.1:4000".toList, "/".toList, none⟩
        ⟨⟨[], none, []⟩, []⟩).log =
      [] ++ [noCredentialsLine
        (getClientIP ⟨"10.0.0.1:4000".toList, "/".toList, none⟩) "/".toList] :=
  (basicAuth_audit_line [] (fun _ w => w) ⟨"10.0.0.1:4000".toList, "/".toList, none⟩
    ⟨⟨[], none, []⟩, []⟩ (by decide)).1 rfl

end FileToWeb
